import Mathlib

/-!
# Verification of `django_admin_performance_tools/quick_actions/base_actions.py`

A shallow embedding of the quick-action mixin classes.  Strings are modelled
as `List Char` with ASCII semantics (class names are Python identifiers, and
the regex character classes `[a-z0-9]`/`[A-Z]` in the source are ASCII ranges).
A class is modelled by the record `ActionClass` holding its name and the
class attributes; the class-attribute caching performed by the getters is
modelled by explicit state passing (each getter returns the value together
with the updated class).
-/

namespace BaseActions

/-- ASCII test for the regex class `[a-z0-9]` used in `base_actions.py`
(97–122 are `a`–`z`, 48–57 are `0`–`9`). -/
def isLowerDigit (c : Char) : Bool :=
  (97 ≤ c.toNat && c.toNat ≤ 122) || (48 ≤ c.toNat && c.toNat ≤ 57)

/-- ASCII test for the regex class `[A-Z]` used in `base_actions.py`
(65–90 are `A`–`Z`). -/
def isUpper (c : Char) : Bool :=
  65 ≤ c.toNat && c.toNat ≤ 90

/-- The whitespace characters stripped by Python `str.strip()` (ASCII part). -/
def isPySpace (c : Char) : Bool :=
  c = ' ' || c = '\t' || c = '\n' || c = '\x0b' || c = '\x0c' || c = '\r'

/-- ASCII lowercasing, as Python `str.lower()` acts on ASCII letters. -/
def asciiLower (c : Char) : Char :=
  if 65 ≤ c.toNat && c.toNat ≤ 90 then Char.ofNat (c.toNat + 32) else c

/-- Model of `re.sub(r"([a-z0-9])([A-Z])", r"\1 \2", s)`: a left-to-right
non-overlapping scan that inserts a space between a lowercase letter or
digit and a following uppercase letter; after a match the scan resumes
after the matched pair. -/
def camelSub : List Char → List Char
  | [] => []
  | [a] => [a]
  | a :: b :: rest =>
    if isLowerDigit a && isUpper b then a :: ' ' :: b :: camelSub rest
    else a :: camelSub (b :: rest)

/-- Scanning loop of Python `s.replace(pat, repl)`, with explicit fuel so
that the recursion is structural; `s.length` fuel always suffices. -/
def strReplaceAux (pat repl : List Char) : Nat → List Char → List Char
  | _, [] => []
  | 0, s => s
  | fuel + 1, c :: rest =>
    if pat.isPrefixOf (c :: rest) && !pat.isEmpty then
      repl ++ strReplaceAux pat repl fuel (List.drop (pat.length - 1) rest)
    else
      c :: strReplaceAux pat repl fuel rest

/-- Python `s.replace(pat, repl)`: replace every non-overlapping occurrence
of `pat`, scanning left to right (for non-empty `pat`). -/
def strReplace (pat repl s : List Char) : List Char :=
  strReplaceAux pat repl s.length s

theorem strReplaceAux_fuel (pat repl : List Char) :
    ∀ (f1 f2 : Nat) (s : List Char), s.length ≤ f1 → s.length ≤ f2 →
      strReplaceAux pat repl f1 s = strReplaceAux pat repl f2 s := by
  intro f1
  induction f1 with
  | zero =>
    intro f2 s h1 h2
    cases s with
    | nil => cases f2 <;> rfl
    | cons c rest => simp at h1
  | succ n ih =>
    intro f2 s h1 h2
    cases s with
    | nil => cases f2 <;> rfl
    | cons c rest =>
      cases f2 with
      | zero => simp at h2
      | succ m =>
        simp only [List.length_cons] at h1 h2
        simp only [strReplaceAux]
        by_cases hp : (pat.isPrefixOf (c :: rest) && !pat.isEmpty) = true
        · rw [if_pos hp, if_pos hp]
          congr 1
          apply ih
          · simp only [List.length_drop]
            omega
          · simp only [List.length_drop]
            omega
        · rw [if_neg hp, if_neg hp]
          congr 1
          apply ih <;> omega

/-- Python `s.strip()` (leading part): drop leading whitespace. -/
def lstrip (s : List Char) : List Char := s.dropWhile isPySpace

/-- Python `s.strip()` (trailing part): drop trailing whitespace. -/
def rstrip (s : List Char) : List Char := (s.reverse.dropWhile isPySpace).reverse

/-- Python `s.strip()`: drop leading and trailing whitespace. -/
def strip (s : List Char) : List Char := rstrip (lstrip s)

/-- A quick-action class: its `__name__` and the class attributes declared
on `BaseAction` (and `success_url` from `AbstractFormViewQuickAction`).
`none` models Python `None`. -/
structure ActionClass where
  className : List Char
  name : Option (List Char)
  url_path : Option (List Char)
  path_name : Option (List Char)
  post_success_message : Option (List Char)
  put_success_message : Option (List Char)
  delete_success_message : Option (List Char)
  success_url : Option (List Char)
deriving DecidableEq

/-- Python truthiness of an optional string: `None` and `""` are falsy. -/
def optTruthy : Option (List Char) → Bool
  | none => false
  | some s => !s.isEmpty

/-- Model of `BaseAction.get_name` (lines 51–57): if `cls.name` is truthy return it;
otherwise insert word boundaries into the class name, remove `"action"`,
remove `"Action"`, strip, cache and return. Returns the value together
with the updated class. -/
def get_name (cls : ActionClass) : List Char × ActionClass :=
  if optTruthy cls.name then (cls.name.getD [], cls)
  else
    let nm := camelSub cls.className
    let v := strip (strReplace ("Action".data) [] (strReplace ("action".data) [] nm))
    (v, { cls with name := some v })

/-- Model of `BaseAction.get_url_path` (lines 59–65): if `cls.url_path` is truthy
return it; otherwise insert word boundaries, lowercase, replace spaces by
hyphens, cache and return. -/
def get_url_path (cls : ActionClass) : List Char × ActionClass :=
  if optTruthy cls.url_path then (cls.url_path.getD [], cls)
  else
    let nm := camelSub cls.className
    let v := strReplace ([' ']) (['-']) (nm.map asciiLower)
    (v, { cls with url_path := some v })

/-- Model of `BaseAction.get_path_name` (lines 67–72): if `cls.path_name` is truthy
return it; otherwise set it to `cls.get_url_path()` and return it. -/
def get_path_name (cls : ActionClass) : List Char × ActionClass :=
  if optTruthy cls.path_name then (cls.path_name.getD [], cls)
  else
    let p := get_url_path cls
    (p.1, { p.2 with path_name := some p.1 })

/-- Model of `BaseAction.get_post_success_message` (lines 74–75). -/
def get_post_success_message (cls : ActionClass) : Option (List Char) :=
  cls.post_success_message

/-- Model of `BaseAction.get_put_success_message` (lines 77–78). -/
def get_put_success_message (cls : ActionClass) : Option (List Char) :=
  cls.put_success_message

/-- Model of `BaseAction.get_delete_success_message` (lines 80–81). -/
def get_delete_success_message (cls : ActionClass) : Option (List Char) :=
  cls.delete_success_message

/-! ## The claims' view of boundary insertion

The claims describe the regex substitution as "insert a space at each
transition from a lowercase letter or digit to an uppercase letter",
considering every adjacent pair.  `specBoundaries` is that pairwise
description; `camelSub_eq_specBoundaries` shows the non-overlapping scan
of `re.sub` computes exactly it. -/

/-- Pairwise description of the boundary insertion: a space is inserted
between every adjacent pair consisting of a lowercase letter or digit
followed by an uppercase letter. -/
def specBoundaries : List Char → List Char
  | [] => []
  | [a] => [a]
  | a :: b :: rest =>
    if isLowerDigit a && isUpper b then a :: ' ' :: specBoundaries (b :: rest)
    else a :: specBoundaries (b :: rest)

theorem isLowerDigit_eq_false_of_isUpper {b : Char} (h : isUpper b = true) :
    isLowerDigit b = false := by
  simp only [isUpper, Bool.and_eq_true, decide_eq_true_eq] at h
  simp only [isLowerDigit, Bool.or_eq_false_iff, Bool.and_eq_false_iff,
    decide_eq_false_iff_not, not_le]
  omega

theorem specBoundaries_cons_of_isUpper {b : Char} (h : isUpper b = true)
    (rest : List Char) : specBoundaries (b :: rest) = b :: specBoundaries rest := by
  cases rest with
  | nil => rfl
  | cons c rs =>
    simp [specBoundaries, isLowerDigit_eq_false_of_isUpper h]

theorem camelSub_eq_specBoundaries (s : List Char) :
    camelSub s = specBoundaries s := by
  induction s using camelSub.induct with
  | case1 => rfl
  | case2 a => rfl
  | case3 a b rest h ih =>
    have hb : isUpper b = true := by
      simp only [Bool.and_eq_true] at h
      exact h.2
    simp only [camelSub, specBoundaries, h, if_pos rfl, if_true]
    rw [specBoundaries_cons_of_isUpper hb, ih]
  | case4 a b rest h ih =>
    have h' : (isLowerDigit a && isUpper b) = false := by
      cases hb : (isLowerDigit a && isUpper b) with
      | false => rfl
      | true => exact absurd hb h
    simp only [camelSub, specBoundaries, h', Bool.false_eq_true, if_false]
    rw [ih]

/-! ## Step lemmas for `strReplace` -/

theorem strReplace_nil (pat repl : List Char) : strReplace pat repl [] = [] := rfl

theorem strReplace_cons_match (pat repl : List Char) (c : Char) (rest : List Char)
    (h : pat.isPrefixOf (c :: rest) = true) (hne : pat.isEmpty = false) :
    strReplace pat repl (c :: rest) =
      repl ++ strReplace pat repl (List.drop (pat.length - 1) rest) := by
  show strReplaceAux pat repl (rest.length + 1) (c :: rest) = _
  simp only [strReplaceAux, h, hne, Bool.not_false, Bool.and_self, if_pos rfl, if_true]
  congr 1
  apply strReplaceAux_fuel
  · simp only [List.length_drop]
    omega
  · exact le_refl _

theorem strReplace_cons_nomatch (pat repl : List Char) (c : Char) (rest : List Char)
    (h : pat.isPrefixOf (c :: rest) = false) :
    strReplace pat repl (c :: rest) = c :: strReplace pat repl rest := by
  show strReplaceAux pat repl (rest.length + 1) (c :: rest) = _
  simp only [strReplaceAux, h, Bool.false_and, Bool.false_eq_true, if_false]
  rfl

/-- A replace with a single-character pattern and single-character
replacement is a character-wise map. -/
theorem strReplace_single (c0 d0 : Char) (s : List Char) :
    strReplace [c0] [d0] s = s.map (fun c => if c = c0 then d0 else c) := by
  induction s with
  | nil => simp [strReplace_nil]
  | cons c rest ih =>
    by_cases h : c = c0
    · subst h
      rw [strReplace_cons_match [c] [d0] c rest (by simp [List.isPrefixOf]) rfl]
      simp [ih]
    · rw [strReplace_cons_nomatch [c0] [d0] c rest (by simp [List.isPrefixOf, h]; exact fun hh => absurd hh.symm h)]
      simp [h, ih]

/-- If `pat` is a (boolean) prefix of `s` then `s` decomposes as
`pat ++ s.drop pat.length`. -/
theorem eq_append_drop_of_isPrefixOf :
    ∀ (pat s : List Char), pat.isPrefixOf s = true → s = pat ++ s.drop pat.length
  | [], s, _ => by simp
  | a :: as, [], h => by simp [List.isPrefixOf] at h
  | a :: as, b :: bs, h => by
    simp only [List.isPrefixOf, Bool.and_eq_true, beq_iff_eq] at h
    obtain ⟨rfl, h2⟩ := h
    simpa using eq_append_drop_of_isPrefixOf as bs h2

/-! ## Stripping all-whitespace strings -/

/-- Boolean test: every character of `s` is Python whitespace. -/
def wsOnly (s : List Char) : Bool := s.all isPySpace

theorem lstrip_eq_nil_of_wsOnly {s : List Char} (h : wsOnly s = true) :
    lstrip s = [] := by
  induction s with
  | nil => rfl
  | cons c rest ih =>
    simp only [wsOnly, List.all_cons, Bool.and_eq_true] at h
    simp only [lstrip, List.dropWhile_cons, h.1, if_true]
    exact ih (by simp [wsOnly, h.2])

theorem strip_eq_nil_of_wsOnly {s : List Char} (h : wsOnly s = true) :
    strip s = [] := by
  simp [strip, lstrip_eq_nil_of_wsOnly h, rstrip]

/-! ## Event traces of the HTTP handlers and of the wizard's `done`

`BaseAction.post/put/delete` perform two observable effects: possibly a
`messages.success(...)` call, and the delegation `super().post/put/delete(...)`.
`WizardFormViewQuickAction.done` possibly calls `messages.success(...)` and
returns `redirect(self.get_success_url())`.  Each method is modelled as the
chronological list of these effects. -/

/-- The target a `redirect` receives: either the raw `success_url` string or
a `reverse_lazy` of a URL name. -/
inductive SuccessUrl where
  | direct (url : List Char)
  | reverseLazy (urlName : List Char)
deriving DecidableEq

/-- Observable effects of the handler methods, in chronological order. -/
inductive Event where
  | success_message (msg : List Char)
  | super_post
  | super_put
  | super_delete
  | redirect_to (u : SuccessUrl)
deriving DecidableEq

/-- Model of `BaseAction.post` (lines 25–29): read the configured message via its
getter, emit it when truthy, then delegate to `super().post`. -/
def post (cls : ActionClass) : List Event :=
  (if optTruthy (get_post_success_message cls) then
    [Event.success_message ((get_post_success_message cls).getD [])]
  else []) ++ [Event.super_post]

/-- Model of `BaseAction.put` (lines 31–35). -/
def put (cls : ActionClass) : List Event :=
  (if optTruthy (get_put_success_message cls) then
    [Event.success_message ((get_put_success_message cls).getD [])]
  else []) ++ [Event.super_put]

/-- Model of `BaseAction.delete` (lines 37–41). -/
def delete (cls : ActionClass) : List Event :=
  (if optTruthy (get_delete_success_message cls) then
    [Event.success_message ((get_delete_success_message cls).getD [])]
  else []) ++ [Event.super_delete]

/-- Python `"{0}".format(x)` for an optional string attribute: `None`
formats as the four characters `None`. -/
def pyFormat : Option (List Char) → List Char
  | none => "None".data
  | some s => s

/-- Model of `AbstractFormViewQuickAction.get_success_url` (lines 98–101): the
configured `success_url` when truthy, otherwise
`reverse_lazy("admin:{0}".format(self.path_name))`. -/
def get_success_url (cls : ActionClass) : SuccessUrl :=
  if optTruthy cls.success_url then SuccessUrl.direct (cls.success_url.getD [])
  else SuccessUrl.reverseLazy ("admin:".data ++ pyFormat cls.path_name)

/-- Model of `WizardFormViewQuickAction.done` (lines 122–126): emit the post success
message when truthy, then redirect to `get_success_url()`. -/
def done (cls : ActionClass) : List Event :=
  (if optTruthy (get_post_success_message cls) then
    [Event.success_message ((get_post_success_message cls).getD [])]
  else []) ++ [Event.redirect_to (get_success_url cls)]

/-! ## The context-dictionary merge

A Python dict display `{"action": self, **a, **b}` evaluates its entries
left to right, a later binding of a key overriding an earlier one.  A dict
is modelled as an association list in which the LAST binding of a key is
its value (`dlookup`), so the dict display is the literal concatenation of
its parts. -/

/-- Association-list lookup where the last binding wins, matching the
override order of a Python dict display. -/
def dlookup {α : Type} : List (List Char × α) → List Char → Option α
  | [], _ => none
  | (k', v) :: rest, k =>
    match dlookup rest k with
    | some v' => some v'
    | none => if k' = k then some v else none

/-- Model of `BaseAction.get_context_data` (lines 43–49): the dict display
`{"action": self, **super().get_context_data(**kwargs),
**admin_site.each_context(self.request)}`, with `superCtx` the per-view
context from the framework and `adminCtx` the computed admin-site
context. -/
def get_context_data {α : Type} (self : α)
    (superCtx adminCtx : List (List Char × α)) : List (List Char × α) :=
  ("action".data, self) :: (superCtx ++ adminCtx)

/-- The merge order as claim C2 words it: self-as-action, then the computed
admin-site context, then the per-view context, later keys overriding. -/
def claimC2_context_data {α : Type} (self : α)
    (superCtx adminCtx : List (List Char × α)) : List (List Char × α) :=
  ("action".data, self) :: (adminCtx ++ superCtx)

theorem dlookup_append {α : Type} (xs ys : List (List Char × α)) (k : List Char) :
    dlookup (xs ++ ys) k =
      match dlookup ys k with
      | some v => some v
      | none => dlookup xs k := by
  induction xs with
  | nil =>
    cases hy : dlookup ys k <;> simp [dlookup, hy]
  | cons p rest ih =>
    obtain ⟨k', v⟩ := p
    simp only [List.cons_append, dlookup, List.append_eq]
    rw [ih]
    cases hy : dlookup ys k <;> simp [dlookup, hy]

/-! ## Strings made of `action` / `Action` tokens and whitespace (claim C9) -/

/-- The strings that consist only of occurrences of the exact substrings
`action` and `Action` and whitespace characters. -/
inductive TokenStr : List Char → Prop where
  | nil : TokenStr []
  | action {t : List Char} : TokenStr t → TokenStr ("action".data ++ t)
  | actionCap {t : List Char} : TokenStr t → TokenStr ("Action".data ++ t)
  | ws {c : Char} {t : List Char} : isPySpace c = true → TokenStr t → TokenStr (c :: t)

/-- Strings made only of `Action` tokens and whitespace: what remains of a
`TokenStr` string after the lowercase occurrences are removed. -/
inductive TokenStrA : List Char → Prop where
  | nil : TokenStrA []
  | actionCap {t : List Char} : TokenStrA t → TokenStrA ("Action".data ++ t)
  | ws {c : Char} {t : List Char} : isPySpace c = true → TokenStrA t → TokenStrA (c :: t)

theorem isPySpace_ne_a {c : Char} (h : isPySpace c = true) : c ≠ 'a' ∧ c ≠ 'A' := by
  simp only [isPySpace, Bool.or_eq_true, decide_eq_true_eq] at h
  rcases h with ((((h | h) | h) | h) | h) | h <;> subst h <;> exact ⟨by decide, by decide⟩

theorem isPrefixOf_cons_of_ne {a b : Char} (as bs : List Char) (h : a ≠ b) :
    (a :: as).isPrefixOf (b :: bs) = false := by
  simp [List.isPrefixOf, h]

theorem isPrefixOf_append_self_list : ∀ (p t : List Char), p.isPrefixOf (p ++ t) = true
  | [], _ => by simp [List.isPrefixOf]
  | a :: as, t => by simp [List.isPrefixOf, isPrefixOf_append_self_list as t]

/-- Removing `action` leaves an `Action` token intact: no occurrence of
`action` starts inside `Action ++ t` before `t`. -/
theorem strReplace_action_skips_actionCap (t : List Char) :
    strReplace ("action".data) [] ("Action".data ++ t) =
      "Action".data ++ strReplace ("action".data) [] t := by
  have e : "Action".data ++ t = 'A' :: 'c' :: 't' :: 'i' :: 'o' :: 'n' :: t := rfl
  rw [e]
  rw [strReplace_cons_nomatch _ _ _ _ (isPrefixOf_cons_of_ne _ _ (by decide))]
  rw [strReplace_cons_nomatch _ _ _ _ (isPrefixOf_cons_of_ne _ _ (by decide))]
  rw [strReplace_cons_nomatch _ _ _ _ (isPrefixOf_cons_of_ne _ _ (by decide))]
  rw [strReplace_cons_nomatch _ _ _ _ (isPrefixOf_cons_of_ne _ _ (by decide))]
  rw [strReplace_cons_nomatch _ _ _ _ (isPrefixOf_cons_of_ne _ _ (by decide))]
  rw [strReplace_cons_nomatch _ _ _ _ (isPrefixOf_cons_of_ne _ _ (by decide))]
  rfl

/-- Removing the `action` occurrences from a token string leaves a string
of `Action` tokens and whitespace. -/
theorem tokenStrA_strReplace_action {s : List Char} (h : TokenStr s) :
    TokenStrA (strReplace ("action".data) [] s) := by
  induction h with
  | nil =>
    rw [strReplace_nil]
    exact TokenStrA.nil
  | action _ ih =>
    rename_i t _
    have e : "action".data ++ t = 'a' :: 'c' :: 't' :: 'i' :: 'o' :: 'n' :: t := rfl
    rw [e, strReplace_cons_match ("action".data) [] 'a' ('c' :: 't' :: 'i' :: 'o' :: 'n' :: t)
      (by exact isPrefixOf_append_self_list ("action".data) t) rfl]
    exact ih
  | actionCap _ ih =>
    rename_i t _
    rw [strReplace_action_skips_actionCap t]
    exact TokenStrA.actionCap ih
  | ws hc _ ih =>
    rename_i c t _
    rw [strReplace_cons_nomatch _ _ _ _ (isPrefixOf_cons_of_ne _ _ (isPySpace_ne_a hc).1.symm)]
    exact TokenStrA.ws hc ih

/-- Removing the `Action` occurrences from a string of `Action` tokens and
whitespace leaves only whitespace. -/
theorem wsOnly_strReplace_actionCap {s : List Char} (h : TokenStrA s) :
    wsOnly (strReplace ("Action".data) [] s) = true := by
  induction h with
  | nil =>
    rw [strReplace_nil]
    rfl
  | actionCap _ ih =>
    rename_i t _
    have e : "Action".data ++ t = 'A' :: 'c' :: 't' :: 'i' :: 'o' :: 'n' :: t := rfl
    rw [e, strReplace_cons_match ("Action".data) [] 'A' ('c' :: 't' :: 'i' :: 'o' :: 'n' :: t)
      (by exact isPrefixOf_append_self_list ("Action".data) t) rfl]
    exact ih
  | ws hc _ ih =>
    rename_i c t _
    rw [strReplace_cons_nomatch _ _ _ _ (isPrefixOf_cons_of_ne _ _ (isPySpace_ne_a hc).2.symm)]
    simp only [wsOnly, List.all_cons, hc, Bool.true_and]
    exact ih

/-- The name derivation of `get_name` yields the empty string on any
token string. -/
theorem deriveName_eq_nil_of_TokenStr {s : List Char} (h : TokenStr s) :
    strip (strReplace ("Action".data) [] (strReplace ("action".data) [] s)) = [] :=
  strip_eq_nil_of_wsOnly (wsOnly_strReplace_actionCap (tokenStrA_strReplace_action h))

/-! ## Concrete classes used as witnesses and counterexamples -/

/-- A quick-action subclass with the given `__name__` and every class
attribute left at its `BaseAction` default (`None`). -/
def mkClass (cn : List Char) : ActionClass :=
  { className := cn, name := none, url_path := none, path_name := none,
    post_success_message := none, put_success_message := none,
    delete_success_message := none, success_url := none }

/-- A subclass configuring only a POST success message. -/
def clsPostMsg : ActionClass :=
  { mkClass ("MyAction".data) with post_success_message := some ("ok".data) }

/-- A wizard subclass with a `path_name` set and no `success_url`. -/
def clsWizard : ActionClass :=
  { mkClass ("MyWizardAction".data) with
      path_name := some ("my-path".data), post_success_message := some ("saved".data) }

/-- Case-insensitive suffix stripping, as claim C1 words the removal of
`action` from the derived display name. -/
def stripSuffixCI (pat s : List Char) : List Char :=
  if (pat.map asciiLower).isSuffixOf (s.map asciiLower) then
    s.take (s.length - pat.length)
  else s

/-- The name derivation exactly as claim C1 words it: insert a space at
each lowercase-or-digit-to-uppercase transition, strip a literal `action`
suffix case-insensitively, strip surrounding whitespace. -/
def claimC1_name (className : List Char) : List Char :=
  strip (stripSuffixCI ("action".data) (specBoundaries className))

/-! ## The claims -/

/-- C1 (counterexample): the claim is false as stated.  `get_name` removes
every occurrence of the exact substrings `action` and `Action`, not just a
case-insensitive suffix: on a class named `ActionExport` the code returns
`Export`, while the claim's suffix-stripping description returns
`Action Export`. -/
theorem C1_counterexample :
    (get_name (mkClass ("ActionExport".data))).1 = "Export".data ∧
    claimC1_name ("ActionExport".data) = "Action Export".data ∧
    ("Export".data : List Char) ≠ "Action Export".data :=
  ⟨by decide, by decide, by decide⟩

/-- C1 (amended): for every `BaseAction` subclass whose `name` attribute is
falsy, `get_name()` returns the class name with a space inserted at each
transition from a lowercase letter or digit to an uppercase letter, then
with every occurrence of the exact substring `action` removed, then every
occurrence of `Action` removed (other casings are retained), and finally
with surrounding whitespace stripped. -/
theorem C1_amended_name_derivation (cls : ActionClass)
    (h : optTruthy cls.name = false) :
    (get_name cls).1 =
      strip (strReplace ("Action".data) [] (strReplace ("action".data) []
        (specBoundaries cls.className))) := by
  simp only [get_name, h, Bool.false_eq_true, if_false]
  rw [camelSub_eq_specBoundaries]

/-- Witness for C1 (amended) at the class `ExportUsersAction`. -/
theorem C1_amended_name_derivation_witness :
    optTruthy (mkClass ("ExportUsersAction".data)).name = false ∧
    (get_name (mkClass ("ExportUsersAction".data))).1 =
      strip (strReplace ("Action".data) [] (strReplace ("action".data) []
        (specBoundaries ("ExportUsersAction".data)))) :=
  ⟨by decide, C1_amended_name_derivation (mkClass ("ExportUsersAction".data)) (by decide)⟩

/-- C2 (counterexample): the claim's override order is false.  When the
per-view context and the admin-site context both bind key `k`, the code
(`get_context_data`, where the admin-site context is listed last) yields
the admin-site value, while the claim's order (per-view context last)
would yield the per-view value. -/
theorem C2_counterexample :
    dlookup (get_context_data 0 [("k".data, 1)] [("k".data, 2)]) ("k".data) = some 2 ∧
    dlookup (claimC2_context_data 0 [("k".data, 1)] [("k".data, 2)]) ("k".data) = some 1 ∧
    (2 : Nat) ≠ 1 :=
  ⟨by decide, by decide, by decide⟩

/-- C2 (amended): `get_context_data` merges exactly three dictionaries with
later keys overriding earlier ones, in the order: self-as-action (under key
`action`), the per-view context from the framework, and the computed
admin-site context — so a lookup prefers the admin-site context, then the
per-view context, then the `action` binding. -/
theorem C2_amended_context_merge {α : Type} (self : α)
    (superCtx adminCtx : List (List Char × α)) (k : List Char) :
    dlookup (get_context_data self superCtx adminCtx) k =
      match dlookup adminCtx k with
      | some v => some v
      | none =>
        match dlookup superCtx k with
        | some v => some v
        | none => if "action".data = k then some self else none := by
  simp only [get_context_data, dlookup]
  rw [dlookup_append]
  cases h1 : dlookup adminCtx k <;> cases h2 : dlookup superCtx k <;> simp

/-- C3: for each of the `post`, `put` and `delete` handlers, a success
message is emitted iff the corresponding configured message (via its
getter) is truthy; when it is falsy the trace is exactly the delegation to
the framework handler, and in every case the non-message behaviour is the
single delegation event. -/
theorem C3_success_message_iff (cls : ActionClass) :
    ((∃ m, Event.success_message m ∈ post cls) ↔
      optTruthy (get_post_success_message cls) = true) ∧
    (optTruthy (get_post_success_message cls) = false → post cls = [Event.super_post]) ∧
    (optTruthy (get_post_success_message cls) = true →
      post cls = [Event.success_message ((get_post_success_message cls).getD []),
        Event.super_post]) ∧
    ((∃ m, Event.success_message m ∈ put cls) ↔
      optTruthy (get_put_success_message cls) = true) ∧
    (optTruthy (get_put_success_message cls) = false → put cls = [Event.super_put]) ∧
    (optTruthy (get_put_success_message cls) = true →
      put cls = [Event.success_message ((get_put_success_message cls).getD []),
        Event.super_put]) ∧
    ((∃ m, Event.success_message m ∈ delete cls) ↔
      optTruthy (get_delete_success_message cls) = true) ∧
    (optTruthy (get_delete_success_message cls) = false → delete cls = [Event.super_delete]) ∧
    (optTruthy (get_delete_success_message cls) = true →
      delete cls = [Event.success_message ((get_delete_success_message cls).getD []),
        Event.super_delete]) := by
  by_cases hp : optTruthy (get_post_success_message cls) = true <;>
    by_cases hq : optTruthy (get_put_success_message cls) = true <;>
      by_cases hd : optTruthy (get_delete_success_message cls) = true <;>
        simp [post, put, delete, hp, hq, hd]

/-- Witness for C3: a class with only a POST message configured emits it on
`post` and emits nothing on `delete`. -/
theorem C3_success_message_iff_witness :
    post clsPostMsg = [Event.success_message ("ok".data), Event.super_post] ∧
    delete clsPostMsg = [Event.super_delete] :=
  ⟨(C3_success_message_iff clsPostMsg).2.2.1 (by decide),
   (C3_success_message_iff clsPostMsg).2.2.2.2.2.2.2.1 (by decide)⟩

/-- C4 (counterexample): the claim is false — in `BaseAction.post` the
success message is added to the message store BEFORE the delegation to the
framework handler, so the delegation event does not precede the message
event in the trace. -/
theorem C4_counterexample :
    post clsPostMsg = [Event.success_message ("ok".data), Event.super_post] ∧
    ¬ (List.indexOf Event.super_post (post clsPostMsg) <
       List.indexOf (Event.success_message ("ok".data)) (post clsPostMsg)) :=
  ⟨by decide, by decide⟩

/-- C4 (amended): in each of `post`, `put` and `delete`, the success
message (when configured) is emitted BEFORE the delegation to the
underlying framework handler: the trace is the message event followed by
the delegation event. -/
theorem C4_amended_message_before_delegation (cls : ActionClass) :
    (optTruthy (get_post_success_message cls) = true →
      post cls = [Event.success_message ((get_post_success_message cls).getD []),
        Event.super_post]) ∧
    (optTruthy (get_put_success_message cls) = true →
      put cls = [Event.success_message ((get_put_success_message cls).getD []),
        Event.super_put]) ∧
    (optTruthy (get_delete_success_message cls) = true →
      delete cls = [Event.success_message ((get_delete_success_message cls).getD []),
        Event.super_delete]) := by
  refine ⟨fun hp => ?_, fun hq => ?_, fun hd => ?_⟩
  · simp [post, hp]
  · simp [put, hq]
  · simp [delete, hd]

/-- Witness for C4 (amended) at a class with a configured POST message. -/
theorem C4_amended_message_before_delegation_witness :
    post clsPostMsg = [Event.success_message ("ok".data), Event.super_post] :=
  (C4_amended_message_before_delegation clsPostMsg).1 (by decide)

/-- C5: for every `BaseAction` subclass whose `url_path` attribute is
falsy, `get_url_path()` returns the class name with a boundary inserted at
each lowercase-or-digit-to-uppercase transition, then lowercased, with
every space replaced by a hyphen (the substring `action` of the class name
is thus retained in the slug). -/
theorem C5_url_path_derivation (cls : ActionClass)
    (h : optTruthy cls.url_path = false) :
    (get_url_path cls).1 =
      ((specBoundaries cls.className).map asciiLower).map
        (fun c => if c = ' ' then '-' else c) := by
  simp only [get_url_path, h, Bool.false_eq_true, if_false]
  rw [strReplace_single, camelSub_eq_specBoundaries]

/-- Witness for C5 at the class `ExportUsersAction`: the slug is
`export-users-action`, retaining `action`. -/
theorem C5_url_path_derivation_witness :
    optTruthy (mkClass ("ExportUsersAction".data)).url_path = false ∧
    (get_url_path (mkClass ("ExportUsersAction".data))).1 = "export-users-action".data :=
  ⟨by decide,
   (C5_url_path_derivation (mkClass ("ExportUsersAction".data)) (by decide)).trans (by decide)⟩

/-- C6: when a `WizardFormViewQuickAction` completes (its `done` method
runs), it emits the configured post success message when one is configured
(and no message otherwise) and returns a redirect to `get_success_url()`,
which is the configured `success_url` when that attribute is truthy and
otherwise the `reverse_lazy` of the admin URL name `admin:` followed by the
action's `path_name`. -/
theorem C6_wizard_done (cls : ActionClass) (pn : List Char)
    (hpn : cls.path_name = some pn) :
    (optTruthy (get_post_success_message cls) = true →
      done cls = [Event.success_message ((get_post_success_message cls).getD []),
        Event.redirect_to (get_success_url cls)]) ∧
    (optTruthy (get_post_success_message cls) = false →
      done cls = [Event.redirect_to (get_success_url cls)]) ∧
    (optTruthy cls.success_url = true →
      get_success_url cls = SuccessUrl.direct (cls.success_url.getD [])) ∧
    (optTruthy cls.success_url = false →
      get_success_url cls = SuccessUrl.reverseLazy ("admin:".data ++ pn)) := by
  refine ⟨fun hm => ?_, fun hm => ?_, fun hu => ?_, fun hu => ?_⟩
  · simp [done, hm]
  · simp [done, hm]
  · simp [get_success_url, hu]
  · simp [get_success_url, hu, pyFormat, hpn]

/-- Witness for C6: a wizard with a configured message, a `path_name` and
no `success_url` emits the message and redirects to the reversal of
`admin:my-path`. -/
theorem C6_wizard_done_witness :
    clsWizard.path_name = some ("my-path".data) ∧
    done clsWizard = [Event.success_message ("saved".data),
      Event.redirect_to (SuccessUrl.reverseLazy ("admin:my-path".data))] := by
  refine ⟨by decide, ?_⟩
  have h := C6_wizard_done clsWizard ("my-path".data) (by decide)
  rw [h.1 (by decide), h.2.2.2 (by decide)]
  decide

/-- C8: for every `BaseAction` subclass whose `path_name` attribute is
falsy, `get_path_name()` returns exactly the string `get_url_path()`
returns. -/
theorem C8_path_name_defaults_to_url_path (cls : ActionClass)
    (h : optTruthy cls.path_name = false) :
    (get_path_name cls).1 = (get_url_path cls).1 := by
  simp [get_path_name, h]

/-- Witness for C8 at the class `ExportUsersAction`. -/
theorem C8_path_name_defaults_to_url_path_witness :
    optTruthy (mkClass ("ExportUsersAction".data)).path_name = false ∧
    (get_path_name (mkClass ("ExportUsersAction".data))).1 =
      (get_url_path (mkClass ("ExportUsersAction".data))).1 :=
  ⟨by decide, C8_path_name_defaults_to_url_path (mkClass ("ExportUsersAction".data)) (by decide)⟩

/-- C9: for a `BaseAction` subclass whose `name` attribute is falsy and
whose class name, after boundary insertion, consists only of occurrences
of the exact substrings `action` and `Action` and whitespace, `get_name()`
returns the empty string; the cached attribute is the (falsy) empty
string, so the derivation re-runs on a subsequent call and again yields
the empty string. -/
theorem C9_token_name_empty (cls : ActionClass)
    (h1 : optTruthy cls.name = false) (h2 : TokenStr (camelSub cls.className)) :
    (get_name cls).1 = [] ∧
    (get_name cls).2.name = some [] ∧
    optTruthy ((get_name cls).2).name = false ∧
    (get_name ((get_name cls).2)).1 = [] := by
  have hv : strip (strReplace ("Action".data) [] (strReplace ("action".data) []
      (camelSub cls.className))) = [] :=
    deriveName_eq_nil_of_TokenStr h2
  have key : get_name cls = ([], { cls with name := some [] }) := by
    simp only [get_name, h1, Bool.false_eq_true, if_false]
    rw [hv]
  have key2 : get_name { cls with name := some [] } = ([], { cls with name := some [] }) := by
    simp only [get_name, optTruthy, List.isEmpty_nil, Bool.not_true, Bool.false_eq_true, if_false]
    rw [hv]
  refine ⟨?_, ?_, ?_, ?_⟩
  · rw [key]
  · rw [key]
  · rw [key]
    rfl
  · rw [key, key2]

/-- Witness for C9 at a class named `Action`. -/
theorem C9_token_name_empty_witness :
    optTruthy (mkClass ("Action".data)).name = false ∧
    (get_name (mkClass ("Action".data))).1 = [] ∧
    (get_name ((get_name (mkClass ("Action".data))).2)).1 = [] := by
  have ht : TokenStr (camelSub ((mkClass ("Action".data)).className)) := by
    rw [show camelSub ((mkClass ("Action".data)).className) = "Action".data from by decide]
    simpa using TokenStr.actionCap TokenStr.nil
  have h := C9_token_name_empty (mkClass ("Action".data)) (by decide) ht
  exact ⟨by decide, h.1, h.2.2.2⟩

/-! ## Caching behaviour of the three class-level getters (claim C7) -/

theorem eq_false_of_not_true {b : Bool} (h : ¬ b = true) : b = false := by
  cases b
  · rfl
  · exact absurd rfl h

theorem get_name_truthy (cls : ActionClass) (h : optTruthy cls.name = true) :
    get_name cls = (cls.name.getD [], cls) := by
  simp [get_name, h]

theorem get_name_derive (cls : ActionClass) (h : optTruthy cls.name = false) :
    get_name cls =
      (strip (strReplace ("Action".data) [] (strReplace ("action".data) []
         (camelSub cls.className))),
       { cls with name := some (strip (strReplace ("Action".data) []
         (strReplace ("action".data) [] (camelSub cls.className)))) }) := by
  simp [get_name, h]

theorem get_url_path_truthy (cls : ActionClass) (h : optTruthy cls.url_path = true) :
    get_url_path cls = (cls.url_path.getD [], cls) := by
  simp [get_url_path, h]

theorem get_url_path_derive (cls : ActionClass) (h : optTruthy cls.url_path = false) :
    get_url_path cls =
      (strReplace ([' ']) (['-']) ((camelSub cls.className).map asciiLower),
       { cls with url_path := some (strReplace ([' ']) (['-'])
         ((camelSub cls.className).map asciiLower)) }) := by
  simp [get_url_path, h]

theorem get_path_name_truthy (cls : ActionClass) (h : optTruthy cls.path_name = true) :
    get_path_name cls = (cls.path_name.getD [], cls) := by
  simp [get_path_name, h]

theorem get_path_name_derive (cls : ActionClass) (h : optTruthy cls.path_name = false) :
    get_path_name cls =
      ((get_url_path cls).1,
       { (get_url_path cls).2 with path_name := some ((get_url_path cls).1) }) := by
  simp [get_path_name, h]

/-- Calling `get_name` again on the updated class is a fixed point after one call: calling it again on the
updated class returns the same value and the same class. -/
theorem get_name_stable (cls : ActionClass) :
    get_name ((get_name cls).2) = get_name cls := by
  by_cases h : optTruthy cls.name = true
  · rw [get_name_truthy cls h]
    exact get_name_truthy cls h
  · have h' : optTruthy cls.name = false := eq_false_of_not_true h
    rw [get_name_derive cls h']
    by_cases he : (strip (strReplace ("Action".data) [] (strReplace ("action".data) []
        (camelSub cls.className)))).isEmpty = true
    · rw [get_name_derive _ (by simp [optTruthy, he])]
    · rw [get_name_truthy _ (by simp [optTruthy, he])]
      rfl

/-- Calling `get_url_path` twice: it is a fixed point after one call. -/
theorem get_url_path_stable (cls : ActionClass) :
    get_url_path ((get_url_path cls).2) = get_url_path cls := by
  by_cases h : optTruthy cls.url_path = true
  · rw [get_url_path_truthy cls h]
    exact get_url_path_truthy cls h
  · have h' : optTruthy cls.url_path = false := eq_false_of_not_true h
    rw [get_url_path_derive cls h']
    by_cases he : (strReplace ([' ']) (['-'])
        ((camelSub cls.className).map asciiLower)).isEmpty = true
    · rw [get_url_path_derive _ (by simp [optTruthy, he])]
    · rw [get_url_path_truthy _ (by simp [optTruthy, he])]
      rfl

/-- The value of `get_url_path` depends only on the `url_path` attribute
and the class name. -/
theorem get_url_path_fst_congr (c1 c2 : ActionClass)
    (h1 : c1.url_path = c2.url_path) (h2 : c1.className = c2.className) :
    (get_url_path c1).1 = (get_url_path c2).1 := by
  by_cases h : optTruthy c2.url_path = true
  · rw [get_url_path_truthy c1 (by rw [h1]; exact h), get_url_path_truthy c2 h, h1]
  · have h' : optTruthy c2.url_path = false := eq_false_of_not_true h
    rw [get_url_path_derive c1 (by rw [h1]; exact h'), get_url_path_derive c2 h']
    simp [h2]

/-- Calling `get_path_name` twice: it is a fixed point after one call. -/
theorem get_path_name_stable (cls : ActionClass) :
    get_path_name ((get_path_name cls).2) = get_path_name cls := by
  by_cases h : optTruthy cls.path_name = true
  · rw [get_path_name_truthy cls h]
    exact get_path_name_truthy cls h
  · have h' : optTruthy cls.path_name = false := eq_false_of_not_true h
    by_cases hu : optTruthy cls.url_path = true
    · rw [get_path_name_derive cls h', get_url_path_truthy cls hu]
      by_cases he : (cls.url_path.getD []).isEmpty = true
      · rw [get_path_name_derive _ (by simp [optTruthy, he]),
          get_url_path_truthy _ (by simpa [optTruthy] using hu)]
      · rw [get_path_name_truthy _ (by simp [optTruthy, he])]
        rfl
    · have hu' : optTruthy cls.url_path = false := eq_false_of_not_true hu
      rw [get_path_name_derive cls h', get_url_path_derive cls hu']
      by_cases he : (strReplace ([' ']) (['-'])
          ((camelSub cls.className).map asciiLower)).isEmpty = true
      · rw [get_path_name_derive _ (by simp [optTruthy, he]),
          get_url_path_derive _ (by simp [optTruthy, he])]
      · rw [get_path_name_truthy _ (by simp [optTruthy, he])]
        rfl

/-- C7: each of `get_name`, `get_url_path` and `get_path_name` is
idempotent — the first call stores the derived value in the corresponding
class attribute and a repeated call returns the same value and leaves the
class unchanged — and when the attribute is already truthy the getter
returns it unchanged without derivation. -/
theorem C7_getters_idempotent (cls : ActionClass) :
    get_name ((get_name cls).2) = get_name cls ∧
    get_url_path ((get_url_path cls).2) = get_url_path cls ∧
    get_path_name ((get_path_name cls).2) = get_path_name cls ∧
    (optTruthy cls.name = false → (get_name cls).2.name = some ((get_name cls).1)) ∧
    (optTruthy cls.url_path = false →
      (get_url_path cls).2.url_path = some ((get_url_path cls).1)) ∧
    (optTruthy cls.path_name = false →
      (get_path_name cls).2.path_name = some ((get_path_name cls).1)) ∧
    (optTruthy cls.name = true → get_name cls = (cls.name.getD [], cls)) ∧
    (optTruthy cls.url_path = true → get_url_path cls = (cls.url_path.getD [], cls)) ∧
    (optTruthy cls.path_name = true → get_path_name cls = (cls.path_name.getD [], cls)) := by
  refine ⟨get_name_stable cls, get_url_path_stable cls, get_path_name_stable cls,
    fun h => ?_, fun h => ?_, fun h => ?_,
    get_name_truthy cls, get_url_path_truthy cls, get_path_name_truthy cls⟩
  · rw [get_name_derive cls h]
  · rw [get_url_path_derive cls h]
  · rw [get_path_name_derive cls h]

/-- Witness for C7: idempotence at `ExportUsersAction` and the truthy
pass-through at a class with `name` set to `X`. -/
theorem C7_getters_idempotent_witness :
    get_name ((get_name (mkClass ("ExportUsersAction".data))).2) =
      get_name (mkClass ("ExportUsersAction".data)) ∧
    (get_name (mkClass ("ExportUsersAction".data))).2.name =
      some ((get_name (mkClass ("ExportUsersAction".data))).1) ∧
    get_name { mkClass ("Foo".data) with name := some ("X".data) } =
      ("X".data, { mkClass ("Foo".data) with name := some ("X".data) }) := by
  refine ⟨(C7_getters_idempotent (mkClass ("ExportUsersAction".data))).1,
    (C7_getters_idempotent (mkClass ("ExportUsersAction".data))).2.2.2.1 (by decide),
    ((C7_getters_idempotent { mkClass ("Foo".data) with
       name := some ("X".data) }).2.2.2.2.2.2.1 (by decide)).trans (by decide)⟩

end BaseActions
